import Mathlib

/-!
Shallow embedding of the Go package `diff` (Myers O(ND) difference
algorithm, file `diff.go`) and verification of the specification's claims
about it.

The embedding follows the source line by line:
* Go `int` becomes `Int`; slice indexing carries an explicit bounds check
  and a Go index-out-of-range panic becomes an `Except` error.
* each Go loop becomes a structurally recursive function whose `Nat`
  counter is the exact number of iterations the loop's own bound allows,
  so that every definition evaluates by kernel reduction;
* the mutable `context` struct becomes an explicit `Ctx` value threaded
  through the functions.
-/

namespace GoDiff

/-- Abnormal outcomes of the embedded code.  In Go each of these is a
runtime panic (index out of range for the three `OOB` cases, an explicit
`panic` for `never`); `fuel` marks exhaustion of the recursion budget of
the embedding of `compare`. -/
inductive Err where
  | eqOOB
  | flagOOB
  | bufOOB
  | never
  | fuel
  deriving Repr, DecidableEq

/-- Structure `Change` from diff.go: one or more deletions or inserts at one
position in two sequences. -/
structure Change where
  A : Int
  B : Int
  Del : Int
  Ins : Int
  deriving Repr, DecidableEq

/-- The `context` struct of diff.go, together with the data interface
(`n = data.N()`, `m = data.M()`, `eq = data.Equal`). -/
structure Ctx where
  n : Nat
  m : Nat
  eq : Int → Int → Except Err Bool
  flags : Array Nat
  mx : Int
  fwd : Option (Array Int)
  rev : Option (Array Int)

/-- The `Ints` adapter: `Equal(a,b)` is `i[0][a] == i[1][b]`, and a Go
slice access out of range panics. -/
def intsEqual (a b : List Int) (i j : Int) : Except Err Bool :=
  if 0 ≤ i ∧ i < (a.length : Int) ∧ 0 ≤ j ∧ j < (b.length : Int) then
    .ok (decide (a.getD i.toNat 0 = b.getD j.toNat 0))
  else
    .error .eqOOB

/-- Checked read of a Go `[]int` buffer at a (possibly negative) index. -/
def bufGet (buf : Array Int) (i : Int) : Except Err Int :=
  if 0 ≤ i ∧ i < (buf.size : Int) then .ok (buf.getD i.toNat 0)
  else .error .bufOOB

/-- Checked write to a Go `[]int` buffer at a (possibly negative) index. -/
def bufSet (buf : Array Int) (i v : Int) : Except Err (Array Int) :=
  if 0 ≤ i ∧ i < (buf.size : Int) then .ok (buf.setD i.toNat v)
  else .error .bufOOB

/-- The "eat common prefix" loop of `context.compare`.  The counter is
`(alimit - aoffset).toNat`: when it reaches zero the loop condition
`aoffset < alimit` is false, so stopping there is faithful. -/
def trimPre (eq : Int → Int → Except Err Bool) :
    Nat → Int → Int → Int → Int → Except Err (Int × Int)
  | 0, ao, bo, _, _ => .ok (ao, bo)
  | cnt + 1, ao, bo, al, bl =>
    if ao < al ∧ bo < bl then
      match eq ao bo with
      | .error e => .error e
      | .ok true => trimPre eq cnt (ao + 1) (bo + 1) al bl
      | .ok false => .ok (ao, bo)
    else .ok (ao, bo)

/-- The "eat common suffix" loop of `context.compare`. -/
def trimSuf (eq : Int → Int → Except Err Bool) :
    Nat → Int → Int → Int → Int → Except Err (Int × Int)
  | 0, _, _, al, bl => .ok (al, bl)
  | cnt + 1, ao, bo, al, bl =>
    if al > ao ∧ bl > bo then
      match eq (al - 1) (bl - 1) with
      | .error e => .error e
      | .ok true => trimSuf eq cnt ao bo (al - 1) (bl - 1)
      | .ok false => .ok (al, bl)
    else .ok (al, bl)

/-- The "b inserts" loop of `context.compare`: `c.flags[boffset] |= 2`. -/
def markIns (flags : Array Nat) : Nat → Int → Int → Except Err (Array Nat)
  | 0, _, _ => .ok flags
  | cnt + 1, bo, bl =>
    if bo < bl then
      if 0 ≤ bo ∧ bo < (flags.size : Int) then
        markIns (flags.setD bo.toNat (flags.getD bo.toNat 0 ||| 2)) cnt (bo + 1) bl
      else .error .flagOOB
    else .ok flags

/-- The "a deletes" loop of `context.compare`: `c.flags[aoffset] |= 1`. -/
def markDel (flags : Array Nat) : Nat → Int → Int → Except Err (Array Nat)
  | 0, _, _ => .ok flags
  | cnt + 1, ao, al =>
    if ao < al then
      if 0 ≤ ao ∧ ao < (flags.size : Int) then
        markDel (flags.setD ao.toNat (flags.getD ao.toNat 0 ||| 1)) cnt (ao + 1) al
      else .error .flagOOB
    else .ok flags

/-- The forward snake loop of `findMiddleSnake`:
`for x < alimit && y < blimit && Equal(x, y) { x++; y++ }`. -/
def fSnake (eq : Int → Int → Except Err Bool) :
    Nat → Int → Int → Int → Int → Except Err (Int × Int)
  | 0, x, y, _, _ => .ok (x, y)
  | cnt + 1, x, y, al, bl =>
    if x < al ∧ y < bl then
      match eq x y with
      | .error e => .error e
      | .ok true => fSnake eq cnt (x + 1) (y + 1) al bl
      | .ok false => .ok (x, y)
    else .ok (x, y)

/-- The reverse snake loop of `findMiddleSnake`:
`for x > aoffset && y > boffset && Equal(x-1, y-1) { x--; y-- }`. -/
def rSnake (eq : Int → Int → Except Err Bool) :
    Nat → Int → Int → Int → Int → Except Err (Int × Int)
  | 0, x, y, _, _ => .ok (x, y)
  | cnt + 1, x, y, ao, bo =>
    if x > ao ∧ y > bo then
      match eq (x - 1) (y - 1) with
      | .error e => .error e
      | .ok true => rSnake eq cnt (x - 1) (y - 1) ao bo
      | .ok false => .ok (x, y)
    else .ok (x, y)

/-- One iteration of the forward search of `findMiddleSnake` at diagonal
`k`: choose a down or right move from the neighbouring diagonals exactly as
the source condition
`k == fmid-d || k != fmid+d && forward[foff+k+1] < forward[foff+k-1]`
does, extend the snake, store the endpoint, and test the odd-delta overlap
with the reverse front. -/
def fMove (F : Array Int) (foff fmid d k : Int) : Except Err Int :=
  if k = fmid - d then
    bufGet F (foff + k + 1)
  else if k ≠ fmid + d then
    match bufGet F (foff + k + 1), bufGet F (foff + k - 1) with
    | .error e, _ => .error e
    | .ok _, .error e => .error e
    | .ok v1, .ok v0 => .ok (if v1 < v0 then v1 else v0 + 1)
  else
    match bufGet F (foff + k - 1) with
    | .error e => .error e
    | .ok v0 => .ok (v0 + 1)

/-- Completion of one forward-search iteration at diagonal `k`: extend the
snake from the chosen start, store the endpoint, and test the odd-delta
overlap with the reverse front. -/
def fStep (eq : Int → Int → Except Err Bool) (R : Array Int)
    (foff roff fmid rmid : Int) (isodd : Bool) (d al bl : Int)
    (F : Array Int) (k : Int) : Except Err (Array Int × Option (Int × Int)) :=
  match fMove F foff fmid d k with
  | .error e => .error e
  | .ok x0 =>
    match fSnake eq (al - x0).toNat x0 (x0 - k) al bl with
    | .error e => .error e
    | .ok (x, _) =>
      match bufSet F (foff + k) x with
      | .error e => .error e
      | .ok F' =>
        if isodd ∧ rmid - d < k ∧ k < rmid + d then
          match bufGet R (roff + k) with
          | .error e => .error e
          | .ok rv => if rv ≤ x then .ok (F', some (x, x - k)) else .ok (F', none)
        else .ok (F', none)

/-- The forward `for k := fmid - d; k <= fmid+d; k += 2` loop; the counter
is the exact number `d+1` of diagonals the loop visits. -/
def fLoop (eq : Int → Int → Except Err Bool) (R : Array Int)
    (foff roff fmid rmid : Int) (isodd : Bool) (d al bl : Int) :
    Nat → Int → Array Int → Except Err (Array Int × Option (Int × Int))
  | 0, _, F => .ok (F, none)
  | cnt + 1, k, F =>
    match fStep eq R foff roff fmid rmid isodd d al bl F k with
    | .error e => .error e
    | .ok (F', some r) => .ok (F', some r)
    | .ok (F', none) => fLoop eq R foff roff fmid rmid isodd d al bl cnt (k + 2) F'

/-- One iteration of the reverse search of `findMiddleSnake` at diagonal
`k`; on an even-delta overlap the source returns the endpoint read from
the forward buffer (`x = c.forward[foff+k]`), not the reverse one. -/
def rMove (R : Array Int) (roff rmid d k : Int) : Except Err Int :=
  if k = rmid + d then
    bufGet R (roff + k - 1)
  else if k ≠ rmid - d then
    match bufGet R (roff + k - 1), bufGet R (roff + k + 1) with
    | .error e, _ => .error e
    | .ok _, .error e => .error e
    | .ok v0, .ok v1 => .ok (if v0 < v1 then v0 else v1 - 1)
  else
    match bufGet R (roff + k + 1) with
    | .error e => .error e
    | .ok v1 => .ok (v1 - 1)

/-- Completion of one reverse-search iteration at diagonal `k`: retreat
through the snake, store the endpoint, and test the even-delta overlap. -/
def rStep (eq : Int → Int → Except Err Bool) (F : Array Int)
    (foff roff fmid rmid : Int) (isodd : Bool) (d ao bo : Int)
    (R : Array Int) (k : Int) : Except Err (Array Int × Option (Int × Int)) :=
  match rMove R roff rmid d k with
  | .error e => .error e
  | .ok x0 =>
    match rSnake eq (x0 - ao).toNat x0 (x0 - k) ao bo with
    | .error e => .error e
    | .ok (x, _) =>
      match bufSet R (roff + k) x with
      | .error e => .error e
      | .ok R' =>
        if (!isodd) ∧ fmid - d ≤ k ∧ k ≤ fmid + d then
          match bufGet F (foff + k) with
          | .error e => .error e
          | .ok fv => if x ≤ fv then .ok (R', some (fv, fv - k)) else .ok (R', none)
        else .ok (R', none)

/-- The reverse `for k := rmid - d; k <= rmid+d; k += 2` loop. -/
def rLoop (eq : Int → Int → Except Err Bool) (F : Array Int)
    (foff roff fmid rmid : Int) (isodd : Bool) (d ao bo : Int) :
    Nat → Int → Array Int → Except Err (Array Int × Option (Int × Int))
  | 0, _, R => .ok (R, none)
  | cnt + 1, k, R =>
    match rStep eq F foff roff fmid rmid isodd d ao bo R k with
    | .error e => .error e
    | .ok (R', some r) => .ok (R', some r)
    | .ok (R', none) => rLoop eq F foff roff fmid rmid isodd d ao bo cnt (k + 2) R'

/-- The `for d := 0; d <= maxd; d++` search loop; exhausting the radius
without a meeting point reaches the source's
`panic("should never be reached")`, embedded as `Err.never`. -/
def dLoop (eq : Int → Int → Except Err Bool) (ao bo al bl foff roff fmid rmid : Int)
    (isodd : Bool) :
    Nat → Int → Array Int → Array Int → Except Err (Array Int × Array Int × Int × Int)
  | 0, _, _, _ => .error .never
  | cnt + 1, d, F, R =>
    match fLoop eq R foff roff fmid rmid isodd d al bl (d.toNat + 1) (fmid - d) F with
    | .error e => .error e
    | .ok (F', some (x, y)) => .ok (F', R, x, y)
    | .ok (F', none) =>
      match rLoop eq F' foff roff fmid rmid isodd d ao bo (d.toNat + 1) (rmid - d) R with
      | .error e => .error e
      | .ok (R', some (x, y)) => .ok (F', R', x, y)
      | .ok (R', none) => dLoop eq ao bo al bl foff roff fmid rmid isodd cnt (d + 1) F' R'

/-- Function `context.findMiddleSnake` from diff.go.  The buffers are allocated on
first use with length `2*c.max`; Go division truncates toward zero, hence
`Int.div` for `maxd`. -/
def findMiddleSnake (c : Ctx) (ao bo al bl : Int) : Except Err (Ctx × Int × Int) :=
  let fmid := ao - bo
  let rmid := al - bl
  let foff := c.mx - fmid
  let roff := c.mx - rmid
  let isodd : Bool := (rmid - fmid) % 2 != 0
  let maxd := Int.tdiv (al - ao + (bl - bo) + 2) 2
  let FR : Array Int × Array Int :=
    match c.fwd, c.rev with
    | none, _ => (Array.mkArray (2 * c.mx).toNat 0, Array.mkArray (2 * c.mx).toNat 0)
    | some F, some R => (F, R)
    | some F, none => (F, #[])
  match bufSet FR.1 (c.mx + 1) ao with
  | .error e => .error e
  | .ok F =>
    match bufSet FR.2 (c.mx - 1) al with
    | .error e => .error e
    | .ok R =>
      match dLoop c.eq ao bo al bl foff roff fmid rmid isodd (maxd + 1).toNat 0 F R with
      | .error e => .error e
      | .ok (F', R', x, y) => .ok ({ c with fwd := some F', rev := some R' }, x, y)

/-- Function `context.compare` from diff.go, with an explicit recursion budget; the
source recursion has no such bound, so running out is reported as
`Err.fuel` rather than silently stopping. -/
def compare (c : Ctx) : Nat → Int → Int → Int → Int → Except Err Ctx
  | 0, _, _, _, _ => .error .fuel
  | fuel + 1, ao, bo, al, bl =>
    match trimPre c.eq (al - ao).toNat ao bo al bl with
    | .error e => .error e
    | .ok (ao', bo') =>
      match trimSuf c.eq (al - ao').toNat ao' bo' al bl with
      | .error e => .error e
      | .ok (al', bl') =>
        if ao' = al' then
          match markIns c.flags (bl' - bo').toNat bo' bl' with
          | .error e => .error e
          | .ok fl => .ok { c with flags := fl }
        else if bo' = bl' then
          match markDel c.flags (al' - ao').toNat ao' al' with
          | .error e => .error e
          | .ok fl => .ok { c with flags := fl }
        else
          match findMiddleSnake c ao' bo' al' bl' with
          | .error e => .error e
          | .ok (c', x, y) =>
            match compare c' fuel ao' bo' x y with
            | .error e => .error e
            | .ok c'' => compare c'' fuel x y al' bl'

/-- The first inner loop of `context.result`:
`for x < n && (y >= m || c.flags[x]&1 != 0) { x++ }`. -/
def advX (flags : Array Nat) (n m : Nat) : Nat → Nat → Nat → Nat
  | 0, x, _ => x
  | cnt + 1, x, y =>
    if x < n ∧ (m ≤ y ∨ flags.getD x 0 &&& 1 ≠ 0) then advX flags n m cnt (x + 1) y
    else x

/-- The second inner loop of `context.result`:
`for y < m && (x >= n || c.flags[y]&2 != 0) { y++ }`. -/
def advY (flags : Array Nat) (n m : Nat) : Nat → Nat → Nat → Nat
  | 0, y, _ => y
  | cnt + 1, y, x =>
    if y < m ∧ (n ≤ x ∨ flags.getD y 0 &&& 2 ≠ 0) then advY flags n m cnt (y + 1) x
    else y

/-- The scan loop of `context.result`.  Every iteration strictly increases
`x + y ≤ n + m`, so a counter of `n + m` iterations is exact. -/
def resultGo (flags : Array Nat) (n m : Nat) : Nat → Nat → Nat → List Change
  | 0, _, _ => []
  | cnt + 1, x, y =>
    if x < n ∧ y < m ∧ flags.getD x 0 &&& 1 = 0 ∧ flags.getD y 0 &&& 2 = 0 then
      resultGo flags n m cnt (x + 1) (y + 1)
    else if x < n ∨ y < m then
      let x' := advX flags n m (n - x) x y
      let y' := advY flags n m (m - y) y x'
      if x < x' ∨ y < y' then
        ⟨(x : Int), (y : Int), (x' : Int) - (x : Int), (y' : Int) - (y : Int)⟩ ::
          resultGo flags n m cnt x' y'
      else resultGo flags n m cnt x' y'
    else []

/-- Function `context.result` from diff.go. -/
def result (flags : Array Nat) (n m : Nat) : List Change :=
  resultGo flags n m (n + m) 0 0

/-- Recursion budget handed to the embedded `compare`; ample for every run
considered in this development. -/
def compareFuel (n m : Nat) : Nat := n + m + 1

/-- The context as `Diff` builds it: flags sized `max(n, m)`, `c.max`
set to `n + m + 1`, path-endpoint buffers not yet allocated. -/
def initCtx (n m : Nat) (eq : Int → Int → Except Err Bool) : Ctx :=
  { n := n, m := m, eq := eq,
    flags := Array.mkArray (if n > m then n else m) 0,
    mx := (n : Int) + (m : Int) + 1, fwd := none, rev := none }

/-- The `c.compare(0, 0, n, m)` stage of `Diff`, returning the final
context. -/
def DiffRun (n m : Nat) (eq : Int → Int → Except Err Bool) : Except Err Ctx :=
  compare (initCtx n m eq) (compareFuel n m) 0 0 (n : Int) (m : Int)

/-- Function `Diff` over the abstract interface (`n = data.N()`, `m = data.M()`,
`eq = data.Equal`). -/
def DiffI (n m : Nat) (eq : Int → Int → Except Err Bool) : Except Err (List Change) :=
  match DiffRun n m eq with
  | .error e => .error e
  | .ok c => .ok (result c.flags n m)

/-- Function `Diff` applied to two int slices through the `Ints` adapter. -/
def Diff (a b : List Int) : Except Err (List Change) :=
  DiffI a.length b.length (intsEqual a b)

/-- Modelled from the spec: applying a change list to sequence A in one
left-to-right pass, at each change deleting `Del` consecutive elements of
A starting at offset `A` and inserting the `Ins` elements of B starting at
offset `B`. -/
def applyChanges (a b : List Int) : Nat → List Change → List Int
  | pos, [] => a.drop pos
  | pos, ch :: rest =>
    (a.drop pos).take (ch.A.toNat - pos) ++ (b.drop ch.B.toNat).take ch.Ins.toNat
      ++ applyChanges a b (ch.A.toNat + ch.Del.toNat) rest

/-- Modelled from the spec: the edit distance of A and B, the minimum
possible number of single-element deletions and insertions transforming A
into B (fuel-indexed so it evaluates by kernel reduction; the fuel
`a.length + b.length` never runs out before both lists are empty). -/
def editDistF : Nat → List Int → List Int → Nat
  | 0, a, b => a.length + b.length
  | _ + 1, [], b => b.length
  | _ + 1, x :: a, [] => (x :: a).length
  | f + 1, x :: a, y :: b =>
    if x = y then editDistF f a b
    else 1 + min (editDistF f a (y :: b)) (editDistF f (x :: a) b)

/-- Modelled from the spec: edit distance at adequate fuel. -/
def editDist (a b : List Int) : Nat := editDistF (a.length + b.length) a b

/-- Role swap of a change, as the Symmetry property describes it:
`A' = B, B' = A, Del' = Ins, Ins' = Del`. -/
def swapChange (c : Change) : Change := ⟨c.B, c.A, c.Ins, c.Del⟩

/-- Total number of elementary edits of a change list,
`sum over changes of Del + Ins`. -/
def totalEdits (cs : List Change) : Int :=
  cs.foldl (fun s c => s + c.Del + c.Ins) 0

/-- Size of the forward path-endpoint buffer left by a `compare` run,
`none` when the run failed or never allocated it. -/
def fwdSize : Except Err Ctx → Option Nat
  | .ok c => c.fwd.map Array.size
  | .error _ => none

/-- Size of the reverse path-endpoint buffer left by a `compare` run. -/
def revSize : Except Err Ctx → Option Nat
  | .ok c => c.rev.map Array.size
  | .error _ => none

/-- Entries of a zero-filled array read as zero. -/
theorem getD_mkArray_zero (k i : Nat) : (Array.mkArray k (0 : Nat)).getD i 0 = 0 := by
  unfold Array.getD
  split
  · simp
  · rfl

/-- The prefix-trim loop consumes the whole square rectangle when the
equality predicate holds on the diagonal. -/
theorem trimPre_diag (eq : Int → Int → Except Err Bool) (al : Int) :
    ∀ (cnt : Nat) (ao : Int), 0 ≤ ao → ao + (cnt : Int) = al →
      (∀ i : Int, 0 ≤ i → i < al → eq i i = .ok true) →
      trimPre eq cnt ao ao al al = .ok (al, al) := by
  intro cnt
  induction cnt with
  | zero =>
    intro ao _ hao _
    simp only [Nat.cast_zero, add_zero] at hao
    subst hao
    rfl
  | succ c ih =>
    intro ao h0 hao heq
    have hlt : ao < al := by omega
    rw [trimPre, if_pos ⟨hlt, hlt⟩, heq ao h0 hlt]
    exact ih (ao + 1) (by omega) (by omega) heq

/-- With all-zero flags the result scan of a square problem emits no
change. -/
theorem resultGo_zero_flags (flags : Array Nat) (n : Nat)
    (hf : ∀ i, flags.getD i 0 = 0) :
    ∀ (cnt x : Nat), resultGo flags n n cnt x x = [] := by
  intro cnt
  induction cnt with
  | zero => intro x; rfl
  | succ c ih =>
    intro x
    rw [resultGo]
    by_cases hx : x < n
    · rw [if_pos ⟨hx, hx, by simp [hf], by simp [hf]⟩]
      exact ih (x + 1)
    · rw [if_neg (by tauto), if_neg (by tauto)]

/-- A `compare` call on the full square rectangle of a self-diff returns
with the flags untouched. -/
theorem compare_self (n : Nat) (eq : Int → Int → Except Err Bool)
    (heq : ∀ i : Int, 0 ≤ i → i < (n : Int) → eq i i = .ok true)
    (fuel : Nat) :
    compare (initCtx n n eq) (fuel + 1) 0 0 (n : Int) (n : Int) =
      .ok (initCtx n n eq) := by
  have htrim : trimPre (initCtx n n eq).eq (((n : Int) - 0).toNat) 0 0 (n : Int) (n : Int) =
      .ok ((n : Int), (n : Int)) := by
    have : ((n : Int) - 0).toNat = n := by omega
    rw [this]
    exact trimPre_diag _ _ n 0 le_rfl (by omega) heq
  have hsub : (((n : Int)) - ((n : Int))).toNat = 0 := by omega
  rw [compare, htrim]
  dsimp only
  rw [hsub]
  dsimp only [trimSuf]
  rw [if_pos rfl, hsub]
  dsimp only [markIns]

/-- Self-diff over the abstract interface: the prefix trim consumes the
whole rectangle, so no flag is ever set and no change is emitted. -/
theorem diffI_self (n : Nat) (eq : Int → Int → Except Err Bool)
    (heq : ∀ i : Int, 0 ≤ i → i < (n : Int) → eq i i = .ok true) :
    DiffI n n eq = .ok [] := by
  have h1 : compareFuel n n = (n + n) + 1 := rfl
  unfold DiffI DiffRun
  rw [h1, compare_self n eq heq (n + n)]
  dsimp only
  unfold result
  rw [resultGo_zero_flags _ _ (fun i => by
    simpa [initCtx] using getD_mkArray_zero (if n > n then n else n) i) _ 0]

/-- The prefix-trim loop stops at once when its entry condition fails. -/
theorem trimPre_stop (eq : Int → Int → Except Err Bool) (cnt : Nat)
    (ao bo al bl : Int) (h : ¬(ao < al ∧ bo < bl)) :
    trimPre eq cnt ao bo al bl = .ok (ao, bo) := by
  cases cnt with
  | zero => rfl
  | succ c => rw [trimPre, if_neg h]

/-- The suffix-trim loop stops at once when its entry condition fails. -/
theorem trimSuf_stop (eq : Int → Int → Except Err Bool) (cnt : Nat)
    (ao bo al bl : Int) (h : ¬(al > ao ∧ bl > bo)) :
    trimSuf eq cnt ao bo al bl = .ok (al, bl) := by
  cases cnt with
  | zero => rfl
  | succ c => rw [trimSuf, if_neg h]

/-- The delete-marking loop succeeds when all its indices are inside the
flags array. -/
theorem markDel_ok (flags : Array Nat) :
    ∀ (cnt : Nat) (ao al : Int), 0 ≤ ao → ao + (cnt : Int) = al →
      al ≤ (flags.size : Int) →
      ∃ fl, markDel flags cnt ao al = .ok fl ∧ fl.size = flags.size := by
  intro cnt
  induction cnt generalizing flags with
  | zero => intro ao al _ _ _; exact ⟨flags, rfl, rfl⟩
  | succ c ih =>
    intro ao al h0 hcnt hsz
    have hlt : ao < al := by omega
    rw [markDel, if_pos hlt, if_pos ⟨h0, by omega⟩]
    obtain ⟨fl, hfl, hs⟩ :=
      ih (flags.setD ao.toNat (flags.getD ao.toNat 0 ||| 1)) (ao + 1) al
        (by omega) (by omega) (by rw [Array.size_setD]; omega)
    exact ⟨fl, hfl, by rw [hs, Array.size_setD]⟩

/-- The insert-marking loop succeeds when all its indices are inside the
flags array. -/
theorem markIns_ok (flags : Array Nat) :
    ∀ (cnt : Nat) (bo bl : Int), 0 ≤ bo → bo + (cnt : Int) = bl →
      bl ≤ (flags.size : Int) →
      ∃ fl, markIns flags cnt bo bl = .ok fl ∧ fl.size = flags.size := by
  intro cnt
  induction cnt generalizing flags with
  | zero => intro bo bl _ _ _; exact ⟨flags, rfl, rfl⟩
  | succ c ih =>
    intro bo bl h0 hcnt hsz
    have hlt : bo < bl := by omega
    rw [markIns, if_pos hlt, if_pos ⟨h0, by omega⟩]
    obtain ⟨fl, hfl, hs⟩ :=
      ih (flags.setD bo.toNat (flags.getD bo.toNat 0 ||| 2)) (bo + 1) bl
        (by omega) (by omega) (by rw [Array.size_setD]; omega)
    exact ⟨fl, hfl, by rw [hs, Array.size_setD]⟩

/-- With an empty B side the first inner loop of `result` walks `x` all
the way to `n` regardless of the flags. -/
theorem advX_m0 (flags : Array Nat) (n : Nat) :
    ∀ (cnt x : Nat), x + cnt = n → advX flags n 0 cnt x 0 = n := by
  intro cnt
  induction cnt with
  | zero => intro x hx; simpa using hx
  | succ c ih =>
    intro x hx
    rw [advX, if_pos ⟨by omega, Or.inl (by omega)⟩]
    exact ih (x + 1) (by omega)

/-- With an empty A side the second inner loop of `result` walks `y` all
the way to `m` regardless of the flags. -/
theorem advY_n0 (flags : Array Nat) (m : Nat) :
    ∀ (cnt y : Nat), y + cnt = m → advY flags 0 m cnt y 0 = m := by
  intro cnt
  induction cnt with
  | zero => intro y hy; simpa using hy
  | succ c ih =>
    intro y hy
    rw [advY, if_pos ⟨by omega, Or.inl (by omega)⟩]
    exact ih (y + 1) (by omega)

/-- After the scan has consumed everything, no further change is
emitted. -/
theorem resultGo_done (flags : Array Nat) (n m : Nat) (cnt : Nat) :
    resultGo flags n m cnt n m = [] := by
  cases cnt with
  | zero => rfl
  | succ c =>
    rw [resultGo, if_neg (by omega), if_neg (by omega)]

/-- Diffing a non-empty sequence against an empty one yields a single
all-deleting change. -/
theorem diffI_m0 (n : Nat) (hn : 0 < n) (eq : Int → Int → Except Err Bool) :
    DiffI n 0 eq = .ok [⟨0, 0, (n : Int), 0⟩] := by
  have h1 : compareFuel n 0 = (n + 0) + 1 := rfl
  unfold DiffI DiffRun
  rw [h1, compare]
  rw [trimPre_stop _ _ _ _ _ _ (by omega)]
  dsimp only
  rw [trimSuf_stop _ _ _ _ _ _ (by omega)]
  dsimp only
  rw [if_neg (show ¬((0 : Int) = (n : Int)) by omega)]
  rw [if_pos (show (0 : Int) = ((0 : Nat) : Int) by simp)]
  have hsz : ((initCtx n 0 eq).flags.size : Int) = (n : Int) := by
    simp [initCtx, hn]
  obtain ⟨fl, hfl, hflsz⟩ :=
    markDel_ok (initCtx n 0 eq).flags (((n : Int) - 0).toNat) 0 (n : Int)
      le_rfl (by omega) (by omega)
  rw [hfl]
  dsimp only
  unfold result
  have hn1 : n + 0 = (n - 1) + 1 := by omega
  rw [hn1, resultGo, if_neg (by rintro ⟨-, h2, -, -⟩; omega), if_pos (Or.inl hn)]
  have hx : advX fl n 0 (n - 0) 0 0 = n := by
    rw [Nat.sub_zero]; exact advX_m0 fl n n 0 (by omega)
  simp only [hx, Nat.sub_self, advY]
  rw [if_pos (Or.inl hn), resultGo_done]
  simp

/-- Diffing an empty sequence against a non-empty one yields a single
all-inserting change. -/
theorem diffI_n0 (m : Nat) (hm : 0 < m) (eq : Int → Int → Except Err Bool) :
    DiffI 0 m eq = .ok [⟨0, 0, 0, (m : Int)⟩] := by
  have h1 : compareFuel 0 m = (0 + m) + 1 := rfl
  unfold DiffI DiffRun
  rw [h1, compare]
  rw [trimPre_stop _ _ _ _ _ _ (by omega)]
  dsimp only
  rw [trimSuf_stop _ _ _ _ _ _ (by omega)]
  dsimp only
  rw [if_pos (show (0 : Int) = ((0 : Nat) : Int) by simp)]
  have hsz : ((initCtx 0 m eq).flags.size : Int) = (m : Int) := by
    simp [initCtx]
  obtain ⟨fl, hfl, hflsz⟩ :=
    markIns_ok (initCtx 0 m eq).flags (((m : Int) - 0).toNat) 0 (m : Int)
      le_rfl (by omega) (by omega)
  rw [hfl]
  dsimp only
  unfold result
  have hm1 : 0 + m = (m - 1) + 1 := by omega
  rw [hm1, resultGo, if_neg (by rintro ⟨h2, -, -, -⟩; omega), if_pos (Or.inr hm)]
  have hy : advY fl 0 m (m - 0) 0 0 = m := by
    rw [Nat.sub_zero]
    exact advY_n0 fl m m 0 (by omega)
  simp only [Nat.sub_self, advX, hy]
  rw [if_pos (Or.inr hm), resultGo_done]
  simp

/-- Diffing two empty sequences yields no change. -/
theorem diffI_00 (eq : Int → Int → Except Err Bool) : DiffI 0 0 eq = .ok [] := rfl

/-- The `Ints` adapter satisfies the diagonal-equality hypothesis of
`diffI_self`. -/
theorem intsEqual_diag (a : List Int) (i : Int)
    (h0 : 0 ≤ i) (hlt : i < (a.length : Int)) : intsEqual a a i i = .ok true := by
  rw [intsEqual, if_pos ⟨h0, hlt, h0, hlt⟩]
  simp

/-- C1: the reconstruction property fails on the code.  On
A = [0,0,1,1,0,1], B = [1,0,0,0,1] the run completes and returns a change
list, but applying that list to A in one left-to-right pass yields
[1,0,0,0,0], not B. -/
theorem c1_reconstruction_fails_on_concrete_input :
    Diff [0, 0, 1, 1, 0, 1] [1, 0, 0, 0, 1] =
      .ok [⟨0, 0, 0, 2⟩, ⟨2, 4, 2, 0⟩, ⟨5, 5, 1, 0⟩] ∧
    applyChanges [0, 0, 1, 1, 0, 1] [1, 0, 0, 0, 1] 0
      [⟨0, 0, 0, 2⟩, ⟨2, 4, 2, 0⟩, ⟨5, 5, 1, 0⟩] = [1, 0, 0, 0, 0] ∧
    [(1 : Int), 0, 0, 0, 0] ≠ [1, 0, 0, 0, 1] := by
  refine ⟨rfl, rfl, by decide⟩

/-- C2: minimality fails on the code.  On A = [0,1], B = [1,2,2] the code
returns a single change with Del+Ins = 5, while the edit distance is 3. -/
theorem c2_minimality_fails_on_concrete_input :
    Diff [0, 1] [1, 2, 2] = .ok [⟨0, 0, 2, 3⟩] ∧
    totalEdits [⟨0, 0, 2, 3⟩] = 5 ∧
    editDist [0, 1] [1, 2, 2] = 3 := by
  refine ⟨rfl, rfl, rfl⟩

/-- C3: strict ordering of the returned changes fails on the code.  On the
input below the last two returned changes both have A = 13, so the list is
not strictly increasing in the A field. -/
theorem c3_ordering_fails_on_concrete_input :
    Diff [0, 0, 0, 2, 1, 1, 2, 2, 1, 2, 0, 2, 0, 0] [1, 0, 0, 0, 0, 1, 0, 1, 1] =
      .ok [⟨0, 0, 0, 1⟩, ⟨3, 4, 7, 0⟩, ⟨11, 5, 1, 1⟩, ⟨13, 7, 0, 2⟩, ⟨13, 9, 1, 0⟩] ∧
    ¬ List.Pairwise (fun c c' : Change => c.A < c'.A)
      [⟨0, 0, 0, 1⟩, ⟨3, 4, 7, 0⟩, ⟨11, 5, 1, 1⟩, ⟨13, 7, 0, 2⟩, ⟨13, 9, 1, 0⟩] := by
  refine ⟨rfl, by simp⟩

/-- C6: the fatal branch is reachable.  On A = [0,0,1,1,1,0], B = [1,0,0,0]
— plain int slices, so the equality predicate is pure and consistent — the
run hits `panic("should never be reached")` in `findMiddleSnake`. -/
theorem c6_panic_reached_on_concrete_input :
    Diff [0, 0, 1, 1, 1, 0] [1, 0, 0, 0] = .error .never := by
  rfl

/-- C8: the "wrap" scenario.  Diffing A = [1] against B = [0,1,2,3] returns
exactly the two changes {0,0,0,1} and {1,2,0,2}, in that order. -/
theorem c8_wrap_scenario :
    Diff [1] [0, 1, 2, 3] = .ok [⟨0, 0, 0, 1⟩, ⟨1, 2, 0, 2⟩] := by
  rfl

/-- C5 counterexample: on A = [0,0], B = [1,0,1] both directions return,
but the (B,A) list is not the role-swap of the (A,B) list. -/
theorem c5_swap_fails_on_concrete_input :
    Diff [0, 0] [1, 0, 1] = .ok [⟨0, 0, 0, 1⟩, ⟨1, 2, 1, 1⟩] ∧
    Diff [1, 0, 1] [0, 0] = .ok [⟨0, 0, 1, 1⟩, ⟨2, 2, 1, 0⟩] ∧
    [Change.mk 0 0 1 1, Change.mk 2 2 1 0] ≠
      List.map swapChange [⟨0, 0, 0, 1⟩, ⟨1, 2, 1, 1⟩] := by
  refine ⟨rfl, rfl, by decide⟩

/-- C7 counterexample: for N = M = 1 the allocated buffers have length
`2*(N+M+1) = 6`, not `2*(N+M+1)+1 = 7` as claimed. -/
theorem c7_buffer_length_counterexample :
    fwdSize (DiffRun 1 1 (intsEqual [0] [1])) = some 6 ∧
    revSize (DiffRun 1 1 (intsEqual [0] [1])) = some 6 ∧
    (6 : Nat) ≠ 2 * (1 + 1 + 1) + 1 := by
  refine ⟨rfl, rfl, by decide⟩

/-- C4: diffing any sequence against itself — N = M and `Equal(i, i)` true
for all i, as with two identical slices — returns an empty change list. -/
theorem c4_self_diff_empty (n : Nat) (eq : Int → Int → Except Err Bool)
    (heq : ∀ i : Int, 0 ≤ i → i < (n : Int) → eq i i = .ok true) :
    DiffI n n eq = .ok [] :=
  diffI_self n eq heq

/-- Witness for C4: the identical slices [5,6,7] against themselves. -/
theorem c4_self_diff_empty_witness :
    DiffI 3 3 (intsEqual [5, 6, 7] [5, 6, 7]) = .ok [] :=
  c4_self_diff_empty 3 (intsEqual [5, 6, 7] [5, 6, 7])
    (fun i h0 hlt => intsEqual_diag [5, 6, 7] i h0 hlt)

/-- C9: diffing two empty sequences returns no change; diffing a non-empty
sequence against an empty one returns exactly one change covering the whole
non-empty side. -/
theorem c9_empty_side_cases :
    Diff ([] : List Int) [] = .ok [] ∧
    (∀ a : List Int, a ≠ [] → Diff a [] = .ok [⟨0, 0, (a.length : Int), 0⟩]) ∧
    (∀ b : List Int, b ≠ [] → Diff [] b = .ok [⟨0, 0, 0, (b.length : Int)⟩]) := by
  refine ⟨rfl, ?_, ?_⟩
  · intro a ha
    exact diffI_m0 a.length (by cases a <;> simp_all) _
  · intro b hb
    exact diffI_n0 b.length (by cases b <;> simp_all) _

/-- Witness for C9 at A = [7], B = [] and at A = [], B = [4, 4]. -/
theorem c9_empty_side_cases_witness :
    Diff [7] [] = .ok [⟨0, 0, 1, 0⟩] ∧ Diff [] [4, 4] = .ok [⟨0, 0, 0, 2⟩] := by
  constructor
  · simpa using c9_empty_side_cases.2.1 [7] (by decide)
  · simpa using c9_empty_side_cases.2.2 [4, 4] (by decide)

/-- C5 amended: when one input is empty or the two inputs are identical
slices, diffing (B, A) produces exactly the role-swapped change list of
diffing (A, B); on general inputs the role-swap relationship does not
hold. -/
theorem c5_swap_holds_on_degenerate_inputs (a b : List Int)
    (h : a = [] ∨ b = [] ∨ a = b) :
    ∃ cs, Diff a b = .ok cs ∧ Diff b a = .ok (cs.map swapChange) := by
  rcases h with h | h | h
  · subst h
    cases b with
    | nil => exact ⟨[], rfl, rfl⟩
    | cons x t =>
      refine ⟨[⟨0, 0, 0, ((x :: t).length : Int)⟩], ?_, ?_⟩
      · exact diffI_n0 (x :: t).length (by simp) _
      · simpa [swapChange] using diffI_m0 (x :: t).length (by simp) (intsEqual (x :: t) [])
  · subst h
    cases a with
    | nil => exact ⟨[], rfl, rfl⟩
    | cons x t =>
      refine ⟨[⟨0, 0, ((x :: t).length : Int), 0⟩], ?_, ?_⟩
      · exact diffI_m0 (x :: t).length (by simp) _
      · simpa [swapChange] using diffI_n0 (x :: t).length (by simp) (intsEqual [] (x :: t))
  · subst h
    have hself : Diff a a = .ok [] :=
      diffI_self a.length _ (fun i h0 hlt => intsEqual_diag a i h0 hlt)
    exact ⟨[], hself, by simpa using hself⟩

/-- Witness for the amended C5 at A = [1, 2], B = []. -/
theorem c5_swap_holds_on_degenerate_inputs_witness :
    ∃ cs, Diff [1, 2] [] = .ok cs ∧ Diff [] [1, 2] = .ok (cs.map swapChange) :=
  c5_swap_holds_on_degenerate_inputs [1, 2] [] (Or.inr (Or.inl rfl))

/-- Well-formedness of the path-endpoint buffers of a context: either not
yet allocated, or both allocated with length `2*c.max`. -/
def bufWF (c : Ctx) : Prop :=
  (c.fwd = none ∧ c.rev = none) ∨
    ∃ F R, c.fwd = some F ∧ c.rev = some R ∧
      F.size = (2 * c.mx).toNat ∧ R.size = (2 * c.mx).toNat

/-- A successful checked buffer write preserves the buffer length. -/
theorem bufSet_size {a a' : Array Int} {i v : Int} (h : bufSet a i v = .ok a') :
    a'.size = a.size := by
  unfold bufSet at h
  split at h
  · cases h; exact Array.size_setD ..
  · exact Except.noConfusion h

/-- A forward-search step preserves the forward buffer length. -/
theorem fStep_size {eq : Int → Int → Except Err Bool} {R : Array Int}
    {foff roff fmid rmid : Int} {isodd : Bool} {d al bl : Int}
    {F : Array Int} {k : Int} {F' : Array Int} {r : Option (Int × Int)}
    (h : fStep eq R foff roff fmid rmid isodd d al bl F k = .ok (F', r)) :
    F'.size = F.size := by
  unfold fStep at h
  rcases h1 : fMove F foff fmid d k with e | x0 <;> rw [h1] at h <;> dsimp only at h
  · exact Except.noConfusion h
  rcases h2 : fSnake eq (al - x0).toNat x0 (x0 - k) al bl with e | ⟨x, y2⟩ <;>
    rw [h2] at h <;> dsimp only at h
  · exact Except.noConfusion h
  rcases h3 : bufSet F (foff + k) x with e | F2 <;> rw [h3] at h <;> dsimp only at h
  · exact Except.noConfusion h
  split at h
  · rcases h4 : bufGet R (roff + k) with e | rv <;> rw [h4] at h <;> dsimp only at h
    · exact Except.noConfusion h
    split at h <;> (cases h; exact bufSet_size h3)
  · cases h; exact bufSet_size h3

/-- The forward diagonal loop preserves the forward buffer length. -/
theorem fLoop_size {eq : Int → Int → Except Err Bool} {R : Array Int}
    {foff roff fmid rmid : Int} {isodd : Bool} {d al bl : Int} :
    ∀ (cnt : Nat) (k : Int) (F F' : Array Int) (r : Option (Int × Int)),
      fLoop eq R foff roff fmid rmid isodd d al bl cnt k F = .ok (F', r) →
      F'.size = F.size := by
  intro cnt
  induction cnt with
  | zero => intro k F F' r h; cases h; rfl
  | succ c ih =>
    intro k F F' r h
    rw [fLoop] at h
    rcases h1 : fStep eq R foff roff fmid rmid isodd d al bl F k with e | ⟨F2, _ | r2⟩ <;>
      rw [h1] at h <;> dsimp only at h
    · exact Except.noConfusion h
    · exact (ih _ _ _ _ h).trans (fStep_size h1)
    · cases h; exact fStep_size h1

/-- A reverse-search step preserves the reverse buffer length. -/
theorem rStep_size {eq : Int → Int → Except Err Bool} {F : Array Int}
    {foff roff fmid rmid : Int} {isodd : Bool} {d ao bo : Int}
    {R : Array Int} {k : Int} {R' : Array Int} {r : Option (Int × Int)}
    (h : rStep eq F foff roff fmid rmid isodd d ao bo R k = .ok (R', r)) :
    R'.size = R.size := by
  unfold rStep at h
  rcases h1 : rMove R roff rmid d k with e | x0 <;> rw [h1] at h <;> dsimp only at h
  · exact Except.noConfusion h
  rcases h2 : rSnake eq (x0 - ao).toNat x0 (x0 - k) ao bo with e | ⟨x, y2⟩ <;>
    rw [h2] at h <;> dsimp only at h
  · exact Except.noConfusion h
  rcases h3 : bufSet R (roff + k) x with e | R2 <;> rw [h3] at h <;> dsimp only at h
  · exact Except.noConfusion h
  split at h
  · rcases h4 : bufGet F (foff + k) with e | fv <;> rw [h4] at h <;> dsimp only at h
    · exact Except.noConfusion h
    split at h <;> (cases h; exact bufSet_size h3)
  · cases h; exact bufSet_size h3

/-- The reverse diagonal loop preserves the reverse buffer length. -/
theorem rLoop_size {eq : Int → Int → Except Err Bool} {F : Array Int}
    {foff roff fmid rmid : Int} {isodd : Bool} {d ao bo : Int} :
    ∀ (cnt : Nat) (k : Int) (R R' : Array Int) (r : Option (Int × Int)),
      rLoop eq F foff roff fmid rmid isodd d ao bo cnt k R = .ok (R', r) →
      R'.size = R.size := by
  intro cnt
  induction cnt with
  | zero => intro k R R' r h; cases h; rfl
  | succ c ih =>
    intro k R R' r h
    rw [rLoop] at h
    rcases h1 : rStep eq F foff roff fmid rmid isodd d ao bo R k with e | ⟨R2, _ | r2⟩ <;>
      rw [h1] at h <;> dsimp only at h
    · exact Except.noConfusion h
    · exact (ih _ _ _ _ h).trans (rStep_size h1)
    · cases h; exact rStep_size h1

/-- The radius loop preserves both buffer lengths. -/
theorem dLoop_size {eq : Int → Int → Except Err Bool}
    {ao bo al bl foff roff fmid rmid : Int} {isodd : Bool} :
    ∀ (cnt : Nat) (d : Int) (F R F' R' : Array Int) (x y : Int),
      dLoop eq ao bo al bl foff roff fmid rmid isodd cnt d F R = .ok (F', R', x, y) →
      F'.size = F.size ∧ R'.size = R.size := by
  intro cnt
  induction cnt with
  | zero => intro d F R F' R' x y h; exact Except.noConfusion h
  | succ c ih =>
    intro d F R F' R' x y h
    rw [dLoop] at h
    rcases h1 : fLoop eq R foff roff fmid rmid isodd d al bl (d.toNat + 1) (fmid - d) F
        with e | ⟨F2, _ | ⟨x2, y2⟩⟩ <;> rw [h1] at h <;> dsimp only at h
    · exact Except.noConfusion h
    · rcases h2 : rLoop eq F2 foff roff fmid rmid isodd d ao bo (d.toNat + 1) (rmid - d) R
          with e | ⟨R2, _ | ⟨x3, y3⟩⟩ <;> rw [h2] at h <;> dsimp only at h
      · exact Except.noConfusion h
      · obtain ⟨hf, hr⟩ := ih _ _ _ _ _ _ _ h
        exact ⟨hf.trans (fLoop_size _ _ _ _ _ h1), hr.trans (rLoop_size _ _ _ _ _ h2)⟩
      · cases h
        exact ⟨fLoop_size _ _ _ _ _ h1, rLoop_size _ _ _ _ _ h2⟩
    · cases h
      exact ⟨fLoop_size _ _ _ _ _ h1, rfl⟩

/-- A successful `findMiddleSnake` call leaves the scalar fields and flags
unchanged and both buffers allocated with length `2*c.max`. -/
theorem findMiddleSnake_shape (c : Ctx) (ao bo al bl : Int) (c' : Ctx) (x y : Int)
    (h : findMiddleSnake c ao bo al bl = .ok (c', x, y)) (hbuf : bufWF c) :
    c'.n = c.n ∧ c'.m = c.m ∧ c'.eq = c.eq ∧ c'.mx = c.mx ∧ c'.flags = c.flags ∧
      ∃ F R, c'.fwd = some F ∧ c'.rev = some R ∧
        F.size = (2 * c.mx).toNat ∧ R.size = (2 * c.mx).toNat := by
  unfold findMiddleSnake at h
  rcases hbuf with ⟨hf, hr⟩ | ⟨F0, R0, hf, hr, hF0, hR0⟩ <;>
    rw [hf, hr] at h <;> dsimp only at h <;> repeat' split at h
  all_goals try exact Except.noConfusion h
  · cases h
    obtain ⟨hdf, hdr⟩ := dLoop_size _ _ _ _ _ _ _ _ (by assumption)
    refine ⟨rfl, rfl, rfl, rfl, rfl, _, _, rfl, rfl, ?_, ?_⟩
    · rw [hdf, bufSet_size (by assumption)]; simp
    · rw [hdr, bufSet_size (by assumption)]; simp
  · cases h
    obtain ⟨hdf, hdr⟩ := dLoop_size _ _ _ _ _ _ _ _ (by assumption)
    refine ⟨rfl, rfl, rfl, rfl, rfl, _, _, rfl, rfl, ?_, ?_⟩
    · rw [hdf, bufSet_size (by assumption), hF0]
    · rw [hdr, bufSet_size (by assumption), hR0]

/-- A successful `compare` call preserves the scalar `max` field and the
buffer well-formedness invariant. -/
theorem compare_bufWF :
    ∀ (fuel : Nat) (c : Ctx) (ao bo al bl : Int) (c' : Ctx),
      compare c fuel ao bo al bl = .ok c' → bufWF c →
      bufWF c' ∧ c'.mx = c.mx := by
  intro fuel
  induction fuel with
  | zero => intro c ao bo al bl c' h _; exact Except.noConfusion h
  | succ f ih =>
    intro c ao bo al bl c' h hbuf
    rw [compare] at h
    rcases h1 : trimPre c.eq (al - ao).toNat ao bo al bl with e | ⟨ao', bo'⟩ <;>
      rw [h1] at h <;> dsimp only at h
    · exact Except.noConfusion h
    rcases h2 : trimSuf c.eq (al - ao').toNat ao' bo' al bl with e | ⟨al', bl'⟩ <;>
      rw [h2] at h <;> dsimp only at h
    · exact Except.noConfusion h
    split at h
    · rcases h3 : markIns c.flags (bl' - bo').toNat bo' bl' with e | fl <;>
        rw [h3] at h <;> dsimp only at h
      · exact Except.noConfusion h
      cases h
      refine ⟨?_, rfl⟩
      rcases hbuf with ⟨hfw, hrv⟩ | ⟨F, R, hfw, hrv, hF, hR⟩
      · exact Or.inl ⟨hfw, hrv⟩
      · exact Or.inr ⟨F, R, hfw, hrv, hF, hR⟩
    split at h
    · rcases h3 : markDel c.flags (al' - ao').toNat ao' al' with e | fl <;>
        rw [h3] at h <;> dsimp only at h
      · exact Except.noConfusion h
      cases h
      refine ⟨?_, rfl⟩
      rcases hbuf with ⟨hfw, hrv⟩ | ⟨F, R, hfw, hrv, hF, hR⟩
      · exact Or.inl ⟨hfw, hrv⟩
      · exact Or.inr ⟨F, R, hfw, hrv, hF, hR⟩
    rcases h4 : findMiddleSnake c ao' bo' al' bl' with e | ⟨c1, x, y⟩ <;>
      rw [h4] at h <;> dsimp only at h
    · exact Except.noConfusion h
    rcases h5 : compare c1 f ao' bo' x y with e | c2 <;> rw [h5] at h <;> dsimp only at h
    · exact Except.noConfusion h
    obtain ⟨-, -, -, hmx1, -, F, R, hfw, hrv, hF, hR⟩ :=
      findMiddleSnake_shape _ _ _ _ _ _ _ _ h4 hbuf
    have hbuf1 : bufWF c1 :=
      Or.inr ⟨F, R, hfw, hrv, by rw [hmx1]; exact hF, by rw [hmx1]; exact hR⟩
    obtain ⟨hbuf2, hmx2⟩ := ih _ _ _ _ _ _ h5 hbuf1
    obtain ⟨hbuf3, hmx3⟩ := ih _ _ _ _ _ _ h hbuf2
    exact ⟨hbuf3, by rw [hmx3, hmx2, hmx1]⟩

/-- C7 amended: the forward and reverse path-endpoint buffers are arrays
of length `2*(N+M+1)` (not `2*(N+M+1)+1`), allocated on first use within a
run and sized from the run's original N and M. -/
theorem c7_buffer_length_amended (n m : Nat) (eq : Int → Int → Except Err Bool)
    (c' : Ctx) (h : DiffRun n m eq = .ok c') :
    (c'.fwd = none ∧ c'.rev = none) ∨
      ∃ F R, c'.fwd = some F ∧ c'.rev = some R ∧
        F.size = 2 * (n + m + 1) ∧ R.size = 2 * (n + m + 1) := by
  obtain ⟨hbuf, hmx⟩ := compare_bufWF _ _ _ _ _ _ _ h (Or.inl ⟨rfl, rfl⟩)
  rcases hbuf with ⟨hf, hr⟩ | ⟨F, R, hf, hr, hF, hR⟩
  · exact Or.inl ⟨hf, hr⟩
  · refine Or.inr ⟨F, R, hf, hr, ?_, ?_⟩
    · rw [hF, hmx]; simp [initCtx]; omega
    · rw [hR, hmx]; simp [initCtx]; omega

/-- Witness for the amended C7 on the run with A = [0], B = [1]. -/
theorem c7_buffer_length_amended_witness :
    ∃ c', DiffRun 1 1 (intsEqual [0] [1]) = .ok c' ∧
      ((c'.fwd = none ∧ c'.rev = none) ∨
        ∃ F R, c'.fwd = some F ∧ c'.rev = some R ∧
          F.size = 2 * (1 + 1 + 1) ∧ R.size = 2 * (1 + 1 + 1)) :=
  ⟨_, rfl, c7_buffer_length_amended 1 1 (intsEqual [0] [1]) _ rfl⟩

end GoDiff
